import Mathlib

/-!
Verification development for the ortholog-fishing core (`fisher.py`).

The Python source is shallowly embedded: each relevant function becomes an
executable Lean definition operating on explicit data (lists, strings,
association lists).  External search tools (hmmsearch, blastp, diamond,
mafft, trimal, fasttree) are modelled by their declared output records, as
the design document places their invocation out of scope; the parsing and
selection logic applied to those records is translated directly from the
source.  Python exceptions (AttributeError on `None.up`, IndexError,
KeyError) are modelled as `none` of an `Option` result.
-/

namespace Fisher

/-- Embeds class `Hit` of `fisher.py`: a candidate hit with its name,
sequence, source gene (`query`), the gene's hmmsearch hit list, and the
selection-path tag (`path_`, "HMM" or "SBH", later possibly renamed). -/
structure Hit where
  name : String
  seq : String
  query : String
  hmm_hits : List String
  path_ : String
  quality : String
deriving DecidableEq, Inhabited

/-- Embeds `Hit.in_hmm_hits`: membership of the hit's name in the gene's
hmmsearch hit list. -/
def Hit.in_hmm_hits (h : Hit) : Bool :=
  decide (h.name ∈ h.hmm_hits)

/-- Python `s.split(sep)` for a one-character separator, on character
lists (kept structurally recursive so that concrete instances evaluate). -/
def splitChar (sep : Char) : List Char → List (List Char)
  | [] => [[]]
  | c :: rest =>
    if c = sep then [] :: splitChar sep rest
    else
      match splitChar sep rest with
      | [] => [[c]]
      | chunk :: more => (c :: chunk) :: more

/-- Python `s.split(sep)` for a one-character separator, on strings. -/
def pySplit (s : String) (sep : Char) : List String :=
  (splitChar sep s.data).map fun cs => String.mk cs

/-- Drop leading whitespace (helper for Python `strip`). -/
def dropLeadWs : List Char → List Char
  | [] => []
  | c :: rest => if c.isWhitespace then dropLeadWs rest else c :: rest

/-- Python `s.strip()`. -/
def pyStrip (s : String) : String :=
  String.mk ((dropLeadWs (dropLeadWs s.data).reverse).reverse)

/-- Python `s[:-n]` (characters, clamped at the empty string). -/
def pyDropRight (s : String) (n : Nat) : String :=
  String.mk (s.data.take (s.data.length - n))

/-- Python `s.replace(old, '')` for a one-character `old` (used for
stripping alignment gaps from the seed sequence). -/
def removeChar (old : Char) : List Char → List Char
  | [] => []
  | c :: rest => if c = old then removeChar old rest else c :: removeChar old rest

/-- Python `s.replace('_SBH', '_BBH')`: left-to-right, non-overlapping. -/
def replaceSBHChars : List Char → List Char
  | '_' :: 'S' :: 'B' :: 'H' :: rest => '_' :: 'B' :: 'B' :: 'H' :: replaceSBHChars rest
  | c :: rest => c :: replaceSBHChars rest
  | [] => []

/-- Embeds the loop of `best_hits` (`fisher.py` lines 204-213): walk the
ordered hit list with a counter; stop when the counter reaches `max_hits`;
every visited hit increments the counter; a hit is kept only when
`in_hmm_hits` holds. -/
def best_hits_go (max_hits : Nat) : Nat → List Hit → List Hit
  | _, [] => []
  | counter, h :: rest =>
    if counter = max_hits then []
    else if h.in_hmm_hits then h :: best_hits_go max_hits (counter + 1) rest
    else best_hits_go max_hits (counter + 1) rest

/-- Embeds `best_hits` applied to the hit list produced by the query
object's `hits()` generator: the candidate list for one gene. -/
def best_hits_list (max_hits : Nat) (hits : List Hit) : List Hit :=
  best_hits_go max_hits 0 hits

/-- The set of taxonomic groups observed in a clade, embedded from the
`groups` accumulation of `correct_phylo_group` (`fisher.py` lines 384-387):
only leaves present in the taxonomy map contribute, and the Python `set`
is modelled by `dedup` (distinct values). -/
def cladeGroups (tax : String → Option String) (leaves : List String) : List String :=
  (leaves.filterMap tax).dedup

/-- Embeds `correct_phylo_group` (`fisher.py` lines 383-392).  The climb is
represented by the chain of ancestor clades, each given by its leaf-name
list, starting at the clade the climb begins from and ending at the root;
`parent.up` is the tail of the chain.  The empty chain corresponds to the
Python call `correct_phylo_group(None, ...)`, which raises
`AttributeError`; it is modelled as `none`. -/
def correct_phylo_group (tax : String → Option String) (sample_taxomomy : String) :
    List (List String) → Option Bool
  | [] => none
  | clade :: rest =>
    let groups := cladeGroups tax clade
    if groups.length > 2 then some false
    else if sample_taxomomy ∈ groups then some true
    else correct_phylo_group tax sample_taxomomy rest

/-- Embeds the phylogenetic tree read by `fasttree` (an `ete3.Tree`): a
rooted tree whose leaves carry names. -/
inductive ETree where
  | leaf (name : String)
  | node (children : List ETree)

mutual

/-- Embeds `parent.get_leaf_names()`: the leaf names of a subtree, in
left-to-right order. -/
def leafNames : ETree → List String
  | .leaf n => [n]
  | .node cs => leafNamesList cs

/-- Leaf names of a forest, in order. -/
def leafNamesList : List ETree → List String
  | [] => []
  | c :: rest => leafNames c ++ leafNamesList rest

end

mutual

/-- Embeds `tree.search_nodes(name=...)[0]` followed by repeated `.up`:
for the first leaf carrying `name`, the chain of enclosing clades (each as
its leaf-name list) from the leaf itself up to the root.  `none` models the
`IndexError` raised when no node carries the name. -/
def findChain : ETree → String → Option (List (List String))
  | .leaf n, name => if n = name then some [[n]] else none
  | .node cs, name =>
    match findChainList cs name with
    | some chain => some (chain ++ [leafNamesList cs])
    | none => none

/-- Chain search over a forest: the first child containing the leaf wins. -/
def findChainList : List ETree → String → Option (List (List String))
  | [], _ => none
  | c :: rest, name =>
    match findChain c name with
    | some chain => some chain
    | none => findChainList rest name

end

/-- Embeds the per-hit placement test of `fasttree` (`fisher.py` line
420-421): locate the hit's leaf, move to its parent (`hit_node.up`, i.e.
drop the leaf's own singleton clade from the chain) and run
`correct_phylo_group` from there. -/
def placement (tax : String → Option String) (sample : String) (t : ETree) (name : String) :
    Option Bool :=
  match findChain t name with
  | none => none
  | some chain => correct_phylo_group tax sample (chain.drop 1)

/-- Embeds the scanning loop of `fasttree` (`fisher.py` lines 415-422):
hits passing the length gate (`correct_len` membership) are collected into
`bb_hits`, and those whose placement climb returns `True` also into
`good_hits`, in input order.  An exception inside the climb aborts the
whole call (`none`). -/
def fasttree_scan (tax : String → Option String) (sample : String) (t : ETree)
    (correct_len : List String) : List Hit → Option (List Hit × List Hit)
  | [] => some ([], [])
  | h :: rest =>
    if h.name ∈ correct_len then
      match placement tax sample t h.name with
      | none => none
      | some ok =>
        match fasttree_scan tax sample t correct_len rest with
        | none => none
        | some (good, bb) => some (if ok then (h :: good, h :: bb) else (good, h :: bb))
    else
      fasttree_scan tax sample t correct_len rest

/-- Embeds `hit.name.replace('_SBH', '_BBH')` (`fisher.py` line 427). -/
def renameBBH (h : Hit) : Hit :=
  { h with name := String.mk (replaceSBHChars h.name.data) }

/-- Embeds the decision at the end of `fasttree` (`fisher.py` lines
423-430): good hits if any, else length-surviving hits renamed to `_BBH`,
else the empty list. -/
def fasttree_result (tax : String → Option String) (sample : String) (t : ETree)
    (correct_len : List String) (checked_hits : List Hit) : Option (List Hit) :=
  match fasttree_scan tax sample t correct_len checked_hits with
  | none => none
  | some (good_hits, bb_hits) =>
    if good_hits.length > 0 then some good_hits
    else if bb_hits.length > 0 then some (bb_hits.map renameBBH)
    else some []

/-- Builds a `Hit` the way `Query.hits` / `SpecQuery.hits` do (`quality`
starts empty, `path_` is the tag accumulated from `""`). -/
def mkHit (name seq query : String) (hmm_hits : List String) (path : String) : Hit :=
  { name := name, seq := seq, query := query, hmm_hits := hmm_hits, path_ := path, quality := "" }

/-- Embeds `Query.hits` (`fisher.py` lines 73-79): every hmmsearch hit, in
order, tagged "HMM".  The protein store `infile_proteins` is the
dictionary built by `get_infile_proteins`. -/
def Query_hits (query : String) (hmm_hits : List String) (infile_proteins : String → String) :
    List Hit :=
  hmm_hits.map fun h => mkHit h (infile_proteins h) query hmm_hits "HMM"

/-- Embeds `SpecQuery.get_specific_query` (`fisher.py` lines 97-109): the
first listed organism having a reference sequence for the gene, together
with that sequence; `gene_dict` is the per-gene reference fasta as a map. -/
def get_specific_query (gene_dict : String → Option String) :
    List String → Option (String × String)
  | [] => none
  | org :: rest =>
    match gene_dict org with
    | some s => some (org, s)
    | none => get_specific_query gene_dict rest

/-- Embeds the dedup loop of `SpecQuery.spec_query_blast` (`fisher.py`
lines 122-127) over the `sseqid` column of the blast output: append each
target name not seen before. -/
def spec_query_blast_go : List String → List String → List String
  | [], blast_hits => blast_hits
  | prot_name :: rest, blast_hits =>
    if prot_name ∈ blast_hits then spec_query_blast_go rest blast_hits
    else spec_query_blast_go rest (blast_hits ++ [prot_name])

/-- The ordered hit list returned by `SpecQuery.spec_query_blast`, given
the `sseqid` column of the blast output in tool order. -/
def spec_query_blast_hits (sseqids : List String) : List String :=
  spec_query_blast_go sseqids []

/-- Embeds `SpecQuery.hits` (`fisher.py` lines 129-145): when a specific
query is found (a truthy organism name), hits come from the seed blast
(gaps stripped from the query sequence) tagged "SBH"; otherwise every
hmmsearch hit tagged "HMM".  `blast` maps the written query sequence to
the ordered blast hit-name list. -/
def SpecQuery_hits (query : String) (organisms : List String)
    (gene_dict : String → Option String) (blast : String → List String)
    (hmm_hits : List String) (infile_proteins : String → String) : List Hit :=
  match get_specific_query gene_dict organisms with
  | some (org, seq) =>
    if org ≠ "" then
      (blast (String.mk (removeChar (Char.ofNat 45) seq.data))).map fun b => mkHit b (infile_proteins b) query hmm_hits "SBH"
    else
      hmm_hits.map fun h => mkHit h (infile_proteins h) query hmm_hits "HMM"
  | none =>
    hmm_hits.map fun h => mkHit h (infile_proteins h) query hmm_hits "HMM"

/-- One line of a diamond tabular output, by the two consulted fields. -/
structure DLine where
  qseqid : String
  stitle : String
deriving DecidableEq, Inhabited

/-- Embeds the Python two-variable unpacking `a, b = s.split(sep)`:
succeeds only when the split has exactly two parts. -/
def split2 (s : String) (sep : Char) : Option (String × String) :=
  match pySplit s sep with
  | [a, b] => some (a, b)
  | _ => none

/-- Whether `pre` starts the character list `l` (helper for the Python
substring test). -/
def charsStart : List Char → List Char → Bool
  | [], _ => true
  | _ :: _, [] => false
  | n :: ns, h :: hs => (n == h) && charsStart ns hs

/-- Whether `needle` occurs contiguously in the character list (helper for
the Python substring test). -/
def charsSub (needle : List Char) : List Char → Bool
  | [] => charsStart needle []
  | h :: hs => charsStart needle (h :: hs) || charsSub needle hs

/-- Embeds the Python string-containment test `needle in hay` used at
`fisher.py` line 448 (`og in gene_og[gene]`). -/
def strContains (hay needle : String) : Bool :=
  charsSub needle.data hay.data

/-- Embeds the loop of `parse_diamond_output` (`fisher.py` lines 438-450):
first-occurrence gating on the full query name, then the bacterial-organism
and orthogroup-substring filters.  `none` models the uncaught exceptions
(unpacking a name without exactly one `@`, a subject title with fewer than
three `|` fields, a gene absent from `gene_og`). -/
def parse_diamond_go (bacterial : List String) (gene_og : String → Option String) :
    List DLine → List String → List String → Option (List String)
  | [], _, correct_hits => some correct_hits
  | line :: rest, proccesed, correct_hits =>
    match split2 line.qseqid '@' with
    | none => none
    | some (_hit, gene) =>
      if line.qseqid ∈ proccesed then
        parse_diamond_go bacterial gene_og rest proccesed correct_hits
      else
        match (pySplit line.stitle '|')[2]? with
        | none => none
        | some og0 =>
          if (pySplit line.stitle '|').headD "" ∈ bacterial then
            parse_diamond_go bacterial gene_og rest (line.qseqid :: proccesed) correct_hits
          else
            match gene_og gene with
            | none => none
            | some ogs =>
              if strContains ogs (pyStrip og0) then
                parse_diamond_go bacterial gene_og rest (line.qseqid :: proccesed)
                  (line.qseqid :: correct_hits)
              else
                parse_diamond_go bacterial gene_og rest (line.qseqid :: proccesed) correct_hits

/-- The surviving-identifier set of `parse_diamond_output`, from the
diamond result lines in file order. -/
def parse_diamond_output (bacterial : List String) (gene_og : String → Option String)
    (lines : List DLine) : Option (List String) :=
  parse_diamond_go bacterial gene_og lines [] []

/-- The filter condition of `parse_diamond_output` evaluated on a single
line: the hit's organism is not bacterial and its orthogroup label occurs
in the gene's allowed-orthogroup string (false also when the line cannot be
parsed or the gene is unknown). -/
def lineSurvives (bacterial : List String) (gene_og : String → Option String)
    (line : DLine) : Bool :=
  match split2 line.qseqid '@' with
  | none => false
  | some (_hit, gene) =>
    match (pySplit line.stitle '|')[2]? with
    | none => false
    | some og0 =>
      if (pySplit line.stitle '|').headD "" ∈ bacterial then false
      else
        match gene_og gene with
        | none => false
        | some ogs => strContains ogs (pyStrip og0)

/-- The reciprocity key of a diamond query name: text before `@` with the
four-character path suffix stripped (`full_name.split('@')[0][:-4]`). -/
def reciprocalKey (qseqid : String) : String :=
  pyDropRight ((pySplit qseqid '@').headD "") 4

/-- The gene label encoded in a dataset-diamond subject title
(`sline[1].split('@')[0]`). -/
def hitGeneOf (stitle : String) : String :=
  (pySplit stitle '@').headD ""

/-- Embeds the loop of `get_reciprocal_hits` (`fisher.py` lines 516-527):
for each stripped query identifier, the first-occurring line's subject gene
label is recorded; later lines for the same identifier are skipped.  `none`
models the unpacking error on a query name without exactly one `@`. -/
def get_reciprocal_hits_go :
    List DLine → List String → List (String × String) → Option (List (String × String))
  | [], _, reciprocal => some reciprocal
  | line :: rest, proccesed, reciprocal =>
    match split2 line.qseqid '@' with
    | none => none
    | some (sequence0, _gene) =>
      if pyDropRight sequence0 4 ∈ proccesed then
        get_reciprocal_hits_go rest proccesed reciprocal
      else
        get_reciprocal_hits_go rest (pyDropRight sequence0 4 :: proccesed)
          ((pyDropRight sequence0 4, hitGeneOf line.stitle) :: reciprocal)

/-- The reciprocity record of `get_reciprocal_hits`, as an association
list. -/
def get_reciprocal_hits (lines : List DLine) : Option (List (String × String)) :=
  get_reciprocal_hits_go lines [] []

/-- Dictionary lookup in the reciprocity record. -/
def assocFind (m : List (String × String)) (k : String) : Option String :=
  (m.find? fun e => e.1 == k).map fun e => e.2

/-- One record appended to the per-gene output file by `new_best_hits`. -/
structure OutEntry where
  seq_name : String
  gene : String
  rank : Nat
  reciprocal : Bool
deriving DecidableEq

/-- Embeds the writing loop of `new_best_hits` (`fisher.py` lines
472-489): the counter `n` is incremented per candidate; a missing
reciprocity record (`KeyError`) decrements it back and writes nothing; an
existing record writes `{seq_name}_q{n}{r|n}` with `r` iff the recorded
gene equals the candidate's gene.  `none` models the uncaught `IndexError`
on a candidate name without an `@`. -/
def new_best_hits_go (reciprocal_hits : String → Option String) :
    Nat → List Hit → Option (List OutEntry)
  | _, [] => some []
  | n, cand :: rest =>
    match (pySplit cand.name '@')[1]? with
    | none => none
    | some gene =>
      match reciprocal_hits (pyDropRight ((pySplit cand.name '@').headD "") 4) with
      | none => new_best_hits_go reciprocal_hits (n + 1 - 1) rest
      | some best_from =>
        match new_best_hits_go reciprocal_hits (n + 1) rest with
        | none => none
        | some out =>
          some ({ seq_name := (pySplit cand.name '@').headD "", gene := gene, rank := n + 1,
                  reciprocal := gene == best_from } :: out)

/-- The records written by `new_best_hits` for one candidate group,
starting the counter at zero. -/
def new_best_hits_out (reciprocal_hits : String → Option String) (top_candidates : List Hit) :
    Option (List OutEntry) :=
  new_best_hits_go reciprocal_hits 0 top_candidates

/-- First-occurrence deduplication: each value once, in the order of its
first appearance. -/
def dedupFirst : List String → List String
  | [] => []
  | x :: xs => x :: dedupFirst (xs.filter fun y => y != x)
termination_by l => l.length
decreasing_by
  simp only [List.length_cons]
  exact Nat.lt_succ_of_le (List.length_filter_le _ _)

/-- Example taxonomy map: organisms `a`, `b`, `c` in three distinct
groups; all other names (for instance the query organism's candidate
sequences) unmapped. -/
def exTax : String → Option String := fun s =>
  if s = "a" then some "G1"
  else if s = "b" then some "G2"
  else if s = "c" then some "G3"
  else none

/-- Example protein store. -/
def exProteins : String → String := fun s => "P" ++ s

/-- Example seed-path hit list: seed organism `S` has a reference
sequence, the seed blast returns `[A, B, C]`, and only `A` and `C` are
profile (hmmsearch) hits. -/
def exSeedHits : List Hit :=
  SpecQuery_hits "g" ["S"] (fun org => if org = "S" then some "QSEQ" else none)
    (fun _ => ["A", "B", "C"]) ["A", "C"] exProteins

/-- Example evaluation tree: the candidate leaf next to reference `refA`,
with reference `refB` outside. -/
def exTree : ETree := .node [.node [.leaf "Samp_1_SBH@g1", .leaf "refA"], .leaf "refB"]

/-- Example taxonomy for `exTree`'s reference leaves. -/
def exTreeTax : String → Option String := fun s =>
  if s = "refA" then some "G" else if s = "refB" then some "H" else none

/-- Example candidate hit placed in `exTree`. -/
def exHitT : Hit := mkHit "Samp_1_SBH@g1" "SEQT" "g1" [] "SBH"

/-- Example bacterial-organism set. -/
def exBacterial : List String := ["BacT"]

/-- Example allowed-orthogroup table. -/
def exGeneOg : String → Option String := fun g => if g = "g1" then some "OG1,OG2" else none

/-- Example diamond lines: a surviving first line (trailing blank
exercises `strip`), a duplicate, and a bacterial hit. -/
def exDL1 : DLine := ⟨"Samp_1_SBH@g1", "OrgA|x|OG1 "⟩

/-- Duplicate line for the same query: ignored. -/
def exDL2 : DLine := ⟨"Samp_1_SBH@g1", "BacT|x|OG9"⟩

/-- Bacterial best hit: rejected. -/
def exDL3 : DLine := ⟨"Samp_2_SBH@g1", "BacT|x|OG1"⟩

/-- Example dataset-diamond lines for the reciprocity record. -/
def exRL1 : DLine := ⟨"Samp_1_SBH@g1", "g1@OrgA"⟩

/-- Later line for the same stripped identifier: ignored. -/
def exRL2 : DLine := ⟨"Samp_1_SBH@g2", "g2@OrgB"⟩

/-- A non-reciprocal record. -/
def exRL3 : DLine := ⟨"Samp_2_SBH@g1", "g9@OrgC"⟩

/-- The reciprocity record built from `exRL1`, `exRL2`, `exRL3`. -/
def exRecipM : List (String × String) := [("Samp_2", "g9"), ("Samp_1", "g1")]

/-- Example final candidates: the second has no reciprocity record. -/
def exCand1 : Hit := mkHit "Samp_1_SBH@g1" "s1" "g1" [] "SBH"

/-- Candidate with no reciprocity record (silently dropped). -/
def exCand2 : Hit := mkHit "Samp_3_SBH@g1" "s3" "g1" [] "SBH"

/-- Candidate whose record points to a different gene (non-reciprocal). -/
def exCand3 : Hit := mkHit "Samp_2_SBH@g1" "s2" "g1" [] "SBH"

/-- First written record for the example candidates. -/
def exEntry1 : OutEntry := ⟨"Samp_1_SBH", "g1", 1, true⟩

/-- Second written record: rank 2 (the dropped candidate left no gap),
non-reciprocal. -/
def exEntry2 : OutEntry := ⟨"Samp_2_SBH", "g1", 2, false⟩

/-- The records written for the example candidates. -/
def exOut : List OutEntry := [exEntry1, exEntry2]

/-- The selection loop of `best_hits` visits exactly the first `max_hits`
hits and keeps those in the hmmsearch hit set. -/
theorem best_hits_go_eq (max_hits : Nat) :
    ∀ (hits : List Hit) (n : Nat), n ≤ max_hits →
      best_hits_go max_hits n hits =
        (hits.take (max_hits - n)).filter fun h => h.in_hmm_hits
  | [], n, _ => by simp [best_hits_go]
  | h :: rest, n, hle => by
    by_cases hn : n = max_hits
    · subst hn
      simp [best_hits_go]
    · have hlt : n < max_hits := lt_of_le_of_ne hle hn
      have harith : max_hits - n = (max_hits - (n + 1)) + 1 := by omega
      rw [best_hits_go, if_neg hn, harith, List.take_succ_cons, List.filter_cons,
        best_hits_go_eq max_hits rest (n + 1) (by omega)]

/-- C2: in seed-path candidate selection every visited hit is counted
toward the `max_hits` budget whether or not it is kept, a hit is kept only
if it is also a profile (hmmsearch) hit, and iteration stops once
`max_hits` items have been counted: the result is the profile-filtered
prefix of the first `max_hits` hits.  In particular, for seed hits
`[A, B, C]` with only `A` and `C` among the profile hits and
`max_hits = 2`, the selected candidates are exactly `[A]` and `C` is never
examined. -/
theorem claim_C2_best_hits_budget :
    (∀ (max_hits : Nat) (hits : List Hit),
        best_hits_list max_hits hits = (hits.take max_hits).filter fun h => h.in_hmm_hits) ∧
    best_hits_list 2 exSeedHits = [mkHit "A" (exProteins "A") "g" ["A", "C"] "SBH"] := by
  constructor
  · intro max_hits hits
    have := best_hits_go_eq max_hits hits 0 (Nat.zero_le _)
    simpa [best_hits_list] using this
  · decide

/-- The blast-hit dedup loop appends, in order, the first occurrences of
the names not already accumulated. -/
theorem spec_query_blast_go_eq :
    ∀ (l acc : List String),
      spec_query_blast_go l acc = acc ++ dedupFirst (l.filter fun x => decide (x ∉ acc))
  | [], acc => by simp [spec_query_blast_go, dedupFirst]
  | x :: rest, acc => by
    rw [spec_query_blast_go, List.filter_cons]
    by_cases hx : x ∈ acc
    · rw [if_pos hx, spec_query_blast_go_eq rest acc]
      simp [hx]
    · rw [if_neg hx, spec_query_blast_go_eq rest (acc ++ [x])]
      have hfil : (rest.filter fun y => decide (y ∉ acc ++ [x])) =
          (rest.filter fun y => decide (y ∉ acc)).filter fun y => y != x := by
        rw [List.filter_filter]
        apply List.filter_congr
        intro a _
        by_cases h1 : a = x <;> by_cases h2 : a ∈ acc <;> simp [h1, h2]
      rw [hfil]
      simp [dedupFirst, hx]

/-- Members of the first-occurrence dedup come from the input list. -/
theorem dedupFirst_mem : ∀ (l : List String) (a : String), a ∈ dedupFirst l → a ∈ l := by
  intro l
  induction l using dedupFirst.induct with
  | case1 => intro a ha; simp [dedupFirst] at ha
  | case2 x xs ih =>
    intro a ha
    rw [dedupFirst] at ha
    rcases List.mem_cons.mp ha with h | h
    · simp [h]
    · exact List.mem_cons_of_mem _ (List.mem_of_mem_filter (ih a h))

/-- The first-occurrence dedup has no duplicates. -/
theorem dedupFirst_nodup : ∀ l : List String, (dedupFirst l).Nodup := by
  intro l
  induction l using dedupFirst.induct with
  | case1 => simp [dedupFirst]
  | case2 x xs ih =>
    rw [dedupFirst]
    refine List.nodup_cons.mpr ⟨fun hx => ?_, ih⟩
    have := List.of_mem_filter (dedupFirst_mem _ _ hx)
    simp at this

/-- C10: the hit list built by `spec_query_blast` has no duplicate
identifiers: it is exactly the input target-name column deduplicated to
first occurrences, so a target reported on several lines enters the list
once, at the rank of its first occurrence. -/
theorem claim_C10_blast_hits_nodup (sseqids : List String) :
    spec_query_blast_hits sseqids = dedupFirst sseqids ∧
      (spec_query_blast_hits sseqids).Nodup := by
  have h : spec_query_blast_hits sseqids = dedupFirst sseqids := by
    rw [spec_query_blast_hits, spec_query_blast_go_eq]
    simp
  exact ⟨h, h ▸ dedupFirst_nodup sseqids⟩

/-- When no listed organism has a reference sequence, no specific query is
found. -/
theorem get_specific_query_none (gene_dict : String → Option String) :
    ∀ organisms : List String, (∀ org ∈ organisms, gene_dict org = none) →
      get_specific_query gene_dict organisms = none
  | [], _ => rfl
  | org :: rest, h => by
    rw [get_specific_query, h org (List.mem_cons_self org rest),
      get_specific_query_none gene_dict rest fun o ho => h o (List.mem_cons_of_mem _ ho)]

/-- C8: if no listed seed organism has a reference sequence for the gene,
seed-path selection produces the same ordered hit list as the profile-only
query, every produced hit is tagged "HMM" (the PROFILE path), and the
candidate selection over any budget agrees. -/
theorem claim_C8_seed_fallback (query : String) (organisms : List String)
    (gene_dict : String → Option String) (blast : String → List String)
    (hmm_hits : List String) (infile_proteins : String → String)
    (hnone : ∀ org ∈ organisms, gene_dict org = none) :
    SpecQuery_hits query organisms gene_dict blast hmm_hits infile_proteins =
        Query_hits query hmm_hits infile_proteins ∧
      (∀ h ∈ Query_hits query hmm_hits infile_proteins, h.path_ = "HMM") ∧
      ∀ max_hits : Nat,
        best_hits_list max_hits
            (SpecQuery_hits query organisms gene_dict blast hmm_hits infile_proteins) =
          best_hits_list max_hits (Query_hits query hmm_hits infile_proteins) := by
  have heq : SpecQuery_hits query organisms gene_dict blast hmm_hits infile_proteins =
      Query_hits query hmm_hits infile_proteins := by
    rw [SpecQuery_hits, get_specific_query_none gene_dict organisms hnone, Query_hits]
  refine ⟨heq, ?_, fun max_hits => by rw [heq]⟩
  intro h hh
  rcases List.mem_map.mp hh with ⟨x, _, hx⟩
  rw [← hx]
  rfl

/-- Concrete instance of the seed-organism fallback (C8). -/
theorem claim_C8_witness :
    SpecQuery_hits "g" ["S1", "S2"] (fun _ => none) (fun _ => ["X"]) ["A"] exProteins =
      Query_hits "g" ["A"] exProteins :=
  (claim_C8_seed_fallback "g" ["S1", "S2"] (fun _ => none) (fun _ => ["X"]) ["A"] exProteins
    (fun _ _ => rfl)).1

/-- Counterexample to C1: a clade with three distinct taxonomic groups
one of which is the sample's own group.  The climb stops there and the
candidate fails (`some false`), although the claim says it passes. -/
theorem claim_C1_counterexample :
    (cladeGroups exTax ["a", "b", "c"]).length > 2 ∧
      "G1" ∈ cladeGroups exTax ["a", "b", "c"] ∧
      correct_phylo_group exTax "G1" [["a", "b", "c"]] = some false := by
  decide

/-- C1 (amended): the group-count check is evaluated before the
membership check, and when the climb stops at a clade with more than two
distinct groups the candidate fails unconditionally — membership of the
sample's group in that clade is never consulted. -/
theorem claim_C1_amended :
    ∀ (tax : String → Option String) (sample : String)
      (pre : List (List String)) (clade : List String) (rest : List (List String)),
      (∀ c ∈ pre, (cladeGroups tax c).length ≤ 2 ∧ sample ∉ cladeGroups tax c) →
      (cladeGroups tax clade).length > 2 →
      correct_phylo_group tax sample (pre ++ clade :: rest) = some false
  | tax, sample, [], clade, rest, _, hclade => by
    rw [List.nil_append, correct_phylo_group]
    simp only [if_pos hclade]
  | tax, sample, c :: pre, clade, rest, hpre, hclade => by
    have hc := hpre c (List.mem_cons_self c pre)
    rw [List.cons_append, correct_phylo_group]
    simp only [if_neg (by omega : ¬ (cladeGroups tax c).length > 2), if_neg hc.2]
    exact claim_C1_amended tax sample pre clade rest
      (fun d hd => hpre d (List.mem_cons_of_mem _ hd)) hclade

/-- Concrete instance of the amended C1 (climb stops at the first clade,
which has three groups). -/
theorem claim_C1_witness :
    correct_phylo_group exTax "G1" [["a", "b", "c"], ["a", "b", "c", "d"]] = some false :=
  claim_C1_amended exTax "G1" [] ["a", "b", "c"] [["a", "b", "c", "d"]]
    (by simp) (by decide)

/-- Counterexample to C4: a chain whose root clade has at most two groups
and lacks the sample's group.  The code recurses on the root's absent
parent (`None`) and raises, modelled by `none`; it does not return the
failure value `some false` the claim describes. -/
theorem claim_C4_counterexample :
    (cladeGroups exTax ["a"]).length ≤ 2 ∧
      "GX" ∉ cladeGroups exTax ["a"] ∧
      correct_phylo_group exTax "GX" [["a"]] = none ∧
      correct_phylo_group exTax "GX" [["a"]] ≠ some false := by
  decide

/-- C4 (amended): the climb terminates on every finite ancestor chain (the
embedding is total), and it climbs past the root — erroring, modelled as
`none` — exactly when every clade on the chain has at most two distinct
groups and never contains the sample's group; in that case no failure
value is returned. -/
theorem claim_C4_amended (tax : String → Option String) (sample : String) :
    ∀ chain : List (List String),
      correct_phylo_group tax sample chain = none ↔
        ∀ clade ∈ chain,
          (cladeGroups tax clade).length ≤ 2 ∧ sample ∉ cladeGroups tax clade
  | [] => by simp [correct_phylo_group]
  | clade :: rest => by
    rw [correct_phylo_group]
    by_cases h2 : (cladeGroups tax clade).length > 2
    · simp [if_pos h2, h2]
    · rw [if_neg h2]
      by_cases hs : sample ∈ cladeGroups tax clade
      · simp [if_pos hs, hs]
      · rw [if_neg hs]
        rw [claim_C4_amended tax sample rest]
        constructor
        · intro h c hc
          rcases List.mem_cons.mp hc with rfl | hc
          · exact ⟨by omega, hs⟩
          · exact h c hc
        · intro h c hc
          exact h c (List.mem_cons_of_mem _ hc)

/-- C9: leaves absent from the taxonomy map contribute no group, so a
clade whose mapped leaves fall into at most two fixed groups has at most
two observed groups and never stops the climb through the group-count
condition: the climb there reduces to the membership check. -/
theorem claim_C9_unmapped_leaves (tax : String → Option String) (clade : List String)
    (g1 g2 : String)
    (hgr : ∀ name ∈ clade, tax name = none ∨ tax name = some g1 ∨ tax name = some g2) :
    (cladeGroups tax clade).length ≤ 2 ∧
      ∀ (sample : String) (rest : List (List String)),
        correct_phylo_group tax sample (clade :: rest) =
          if sample ∈ cladeGroups tax clade then some true
          else correct_phylo_group tax sample rest := by
  have hsub : cladeGroups tax clade ⊆ [g1, g2] := by
    intro x hx
    have hx' : x ∈ clade.filterMap tax := List.mem_dedup.mp hx
    rcases List.mem_filterMap.mp hx' with ⟨name, hname, htax⟩
    rcases hgr name hname with h | h | h
    · rw [h] at htax; cases htax
    · rw [h] at htax
      simp [Option.some_inj.mp htax]
    · rw [h] at htax
      simp [Option.some_inj.mp htax]
  have hlen : (cladeGroups tax clade).length ≤ 2 := by
    have hnd : (cladeGroups tax clade).Nodup := List.nodup_dedup _
    have := (hnd.subperm hsub).length_le
    simpa using this
  refine ⟨hlen, fun sample rest => ?_⟩
  rw [correct_phylo_group]
  simp only [if_neg (by omega : ¬ (cladeGroups tax clade).length > 2)]

/-- Concrete instance of C9: a clade of two mapped reference leaves and an
unmapped candidate leaf does not break the climb by group count. -/
theorem claim_C9_witness :
    (cladeGroups exTax ["a", "b", "Samp_1_SBH@g1"]).length ≤ 2 ∧
      correct_phylo_group exTax "G2" [["a", "b", "Samp_1_SBH@g1"]] =
        (if "G2" ∈ cladeGroups exTax ["a", "b", "Samp_1_SBH@g1"] then some true
         else correct_phylo_group exTax "G2" []) :=
  ⟨(claim_C9_unmapped_leaves exTax ["a", "b", "Samp_1_SBH@g1"] "G1" "G2" (by decide)).1,
   (claim_C9_unmapped_leaves exTax ["a", "b", "Samp_1_SBH@g1"] "G1" "G2" (by decide)).2
     "G2" []⟩

/-- The `fasttree` scanning loop, when no placement climb errors,
produces exactly the length-gate survivors (`bb_hits`) and among them the
placement passers (`good_hits`), in order. -/
theorem fasttree_scan_eq (tax : String → Option String) (sample : String) (t : ETree)
    (correct_len : List String) :
    ∀ hits : List Hit,
      (∀ h ∈ hits, h.name ∈ correct_len → (placement tax sample t h.name).isSome) →
      fasttree_scan tax sample t correct_len hits =
        some
          ((hits.filter fun h => decide (h.name ∈ correct_len)).filter
              (fun h => decide (placement tax sample t h.name = some true)),
            hits.filter fun h => decide (h.name ∈ correct_len))
  | [], _ => by simp [fasttree_scan]
  | h :: rest, hwf => by
    rw [fasttree_scan]
    by_cases hc : h.name ∈ correct_len
    · rw [if_pos hc]
      obtain ⟨ok, hok⟩ := Option.isSome_iff_exists.mp (hwf h (List.mem_cons_self h rest) hc)
      rw [hok, fasttree_scan_eq tax sample t correct_len rest
        (fun x hx hx2 => hwf x (List.mem_cons_of_mem _ hx) hx2)]
      cases ok <;> simp [List.filter_cons, hc, hok]
    · rw [if_neg hc, fasttree_scan_eq tax sample t correct_len rest
        (fun x hx hx2 => hwf x (List.mem_cons_of_mem _ hx) hx2)]
      simp [List.filter_cons, hc]

/-- C3: assuming every length-surviving candidate's placement climb
returns a verdict, the validator returns exactly one of three results: the
placement passers unchanged (still `_SBH`-tagged) when some candidate
passes; otherwise all length-gate survivors renamed `_SBH` → `_BBH`; and
otherwise the empty list. -/
theorem claim_C3_validator_trichotomy (tax : String → Option String) (sample : String)
    (t : ETree) (correct_len : List String) (checked_hits : List Hit)
    (hwf : ∀ h ∈ checked_hits, h.name ∈ correct_len →
      (placement tax sample t h.name).isSome) :
    (let bb := checked_hits.filter fun h => decide (h.name ∈ correct_len)
     let good := bb.filter fun h => decide (placement tax sample t h.name = some true)
     (good ≠ [] ∧
        fasttree_result tax sample t correct_len checked_hits = some good) ∨
     (good = [] ∧ bb ≠ [] ∧
        fasttree_result tax sample t correct_len checked_hits = some (bb.map renameBBH)) ∨
     (good = [] ∧ bb = [] ∧
        fasttree_result tax sample t correct_len checked_hits = some [])) := by
  have hscan := fasttree_scan_eq tax sample t correct_len checked_hits hwf
  set bb := checked_hits.filter fun h => decide (h.name ∈ correct_len) with hbb
  set good := bb.filter fun h => decide (placement tax sample t h.name = some true) with hgood
  have hres : fasttree_result tax sample t correct_len checked_hits =
      (if good.length > 0 then some good
       else if bb.length > 0 then some (bb.map renameBBH) else some []) := by
    rw [fasttree_result, hscan]
  by_cases hg : good = []
  · by_cases hb : bb = []
    · right; right
      refine ⟨hg, hb, ?_⟩
      rw [hres, hg, hb]
      simp
    · right; left
      refine ⟨hg, hb, ?_⟩
      rw [hres, hg]
      simp [List.length_pos.mpr hb]
  · left
    refine ⟨hg, ?_⟩
    rw [hres]
    simp [List.length_pos.mpr hg]

/-- Concrete instance of the validator trichotomy (C3): one candidate,
passing both the length gate and the placement climb, is returned as a
good hit. -/
theorem claim_C3_witness :
    (let bb := [exHitT].filter fun h => decide (h.name ∈ ["Samp_1_SBH@g1"])
     let good := bb.filter fun h =>
       decide (placement exTreeTax "G" exTree h.name = some true)
     (good ≠ [] ∧
        fasttree_result exTreeTax "G" exTree ["Samp_1_SBH@g1"] [exHitT] = some good) ∨
     (good = [] ∧ bb ≠ [] ∧
        fasttree_result exTreeTax "G" exTree ["Samp_1_SBH@g1"] [exHitT] =
          some (bb.map renameBBH)) ∨
     (good = [] ∧ bb = [] ∧
        fasttree_result exTreeTax "G" exTree ["Samp_1_SBH@g1"] [exHitT] = some [])) :=
  claim_C3_validator_trichotomy exTreeTax "G" exTree ["Samp_1_SBH@g1"] [exHitT] (by decide)

/-- Membership in the diamond-filter result, relative to the running
`proccesed` / `correct_hits` accumulators: a name is in the final set iff
it was already accumulated or its first-occurring unprocessed line passes
the bacterial/orthogroup filter. -/
theorem parse_diamond_go_mem (bacterial : List String) (gene_og : String → Option String) :
    ∀ (lines : List DLine) (proccesed correct_hits res : List String),
      parse_diamond_go bacterial gene_og lines proccesed correct_hits = some res →
      ∀ name : String, name ∈ res ↔
        (name ∈ correct_hits ∨
          (name ∉ proccesed ∧
            ∃ l, lines.find? (fun x => x.qseqid == name) = some l ∧
              lineSurvives bacterial gene_og l = true))
  | [], proccesed, correct_hits, res, hres, name => by
    rw [parse_diamond_go] at hres
    injection hres with h
    subst h
    simp
  | line :: rest, proccesed, correct_hits, res, hres, name => by
    rw [parse_diamond_go] at hres
    split at hres
    · exact absurd hres (by simp)
    · rename_i hitp gene hsp
      split at hres
      · rename_i hmem
        have ih := parse_diamond_go_mem bacterial gene_og rest proccesed correct_hits res
          hres name
        by_cases hq : line.qseqid = name
        · rw [ih]
          constructor
          · rintro (h | ⟨hnp, -⟩)
            · exact Or.inl h
            · exact absurd (hq ▸ hmem) hnp
          · rintro (h | ⟨hnp, -⟩)
            · exact Or.inl h
            · exact absurd (hq ▸ hmem) hnp
        · have hq' : ¬ (name = line.qseqid) := fun h => hq h.symm
          rw [List.find?_cons_of_neg _ (by simp [hq]), ih]
      · rename_i hmem
        split at hres
        · exact absurd hres (by simp)
        · rename_i og0 hog0
          split at hres
          · rename_i hbac
            have ih := parse_diamond_go_mem bacterial gene_og rest
              (line.qseqid :: proccesed) correct_hits res hres name
            have hsurv : lineSurvives bacterial gene_og line = false := by
              have hbac' : (pySplit line.stitle '|').head?.getD "" ∈ bacterial := by
                simpa using hbac
              simp [lineSurvives, hsp, hog0, hbac']
            by_cases hq : line.qseqid = name
            · rw [List.find?_cons_of_pos _ (by simp [hq]), ih]
              simp [hsurv, ← hq, hmem]
            · have hq' : ¬ (name = line.qseqid) := fun h => hq h.symm
              rw [List.find?_cons_of_neg _ (by simp [hq]), ih]
              simp [List.mem_cons, hq']
          · rename_i hbac
            split at hres
            · exact absurd hres (by simp)
            · rename_i ogs hogs
              split at hres
              · rename_i hstr
                have ih := parse_diamond_go_mem bacterial gene_og rest
                  (line.qseqid :: proccesed) (line.qseqid :: correct_hits) res hres name
                have hsurv : lineSurvives bacterial gene_og line = true := by
                  have hbac' : (pySplit line.stitle '|').head?.getD "" ∉ bacterial := by
                    simpa using hbac
                  simp [lineSurvives, hsp, hog0, hbac', hogs, hstr]
                by_cases hq : line.qseqid = name
                · rw [List.find?_cons_of_pos _ (by simp [hq]), ih]
                  simp [hsurv, ← hq, hmem]
                · have hq' : ¬ (name = line.qseqid) := fun h => hq h.symm
                  rw [List.find?_cons_of_neg _ (by simp [hq]), ih]
                  simp [List.mem_cons, hq']
              · rename_i hstr
                have ih := parse_diamond_go_mem bacterial gene_og rest
                  (line.qseqid :: proccesed) correct_hits res hres name
                have hsurv : lineSurvives bacterial gene_og line = false := by
                  have hbac' : (pySplit line.stitle '|').head?.getD "" ∉ bacterial := by
                    simpa using hbac
                  simp [lineSurvives, hsp, hog0, hbac', hogs, hstr]
                by_cases hq : line.qseqid = name
                · rw [List.find?_cons_of_pos _ (by simp [hq]), ih]
                  simp [hsurv, ← hq, hmem]
                · have hq' : ¬ (name = line.qseqid) := fun h => hq h.symm
                  rw [List.find?_cons_of_neg _ (by simp [hq]), ih]
                  simp [List.mem_cons, hq']

/-- C5: a candidate is in the surviving-identifier set iff its
first-occurring diamond line (later duplicate lines are ignored) has a
non-bacterial organism and an orthogroup label matching the gene's allowed
orthogroups. -/
theorem claim_C5_first_hit_filter (bacterial : List String)
    (gene_og : String → Option String) (lines : List DLine) (res : List String)
    (hres : parse_diamond_output bacterial gene_og lines = some res) (name : String) :
    name ∈ res ↔
      ∃ l, lines.find? (fun x => x.qseqid == name) = some l ∧
        lineSurvives bacterial gene_og l = true := by
  have := parse_diamond_go_mem bacterial gene_og lines [] [] res hres name
  simpa using this

/-- Concrete instance of the diamond filter (C5): the first line for the
candidate survives, its duplicate and a bacterial line are ignored. -/
theorem claim_C5_witness :
    "Samp_1_SBH@g1" ∈ ["Samp_1_SBH@g1"] ↔
      ∃ l, [exDL1, exDL2, exDL3].find? (fun x => x.qseqid == "Samp_1_SBH@g1") = some l ∧
        lineSurvives exBacterial exGeneOg l = true :=
  claim_C5_first_hit_filter exBacterial exGeneOg [exDL1, exDL2, exDL3] ["Samp_1_SBH@g1"]
    (by decide) "Samp_1_SBH@g1"

/-- The writing loop of `new_best_hits` never errors on well-formed
candidate names, assigns ranks `n+1, n+2, ...` densely to the candidates
possessing a reciprocity record, and skips the others. -/
theorem new_best_hits_go_spec (recip : String → Option String) :
    ∀ (cands : List Hit) (n : Nat),
      (∀ c ∈ cands, 2 ≤ (pySplit c.name '@').length) →
      ∃ out, new_best_hits_go recip n cands = some out ∧
        out.map OutEntry.rank = List.range' (n + 1) out.length ∧
        out.map OutEntry.seq_name =
          ((cands.filter fun c =>
              (recip (pyDropRight ((pySplit c.name '@').headD "") 4)).isSome).map
            fun c => (pySplit c.name '@').headD "")
  | [], n, _ => ⟨[], rfl, rfl, rfl⟩
  | cand :: rest, n, hwf => by
    have h2 : 2 ≤ (pySplit cand.name '@').length := hwf cand (List.mem_cons_self _ _)
    have hlt : 1 < (pySplit cand.name '@').length := by omega
    obtain ⟨g, hget⟩ : ∃ g, (pySplit cand.name '@')[1]? = some g :=
      ⟨_, List.getElem?_eq_getElem hlt⟩
    cases hre : recip (pyDropRight ((pySplit cand.name '@').headD "") 4) with
    | none =>
      obtain ⟨out, hout, hrank, hseq⟩ := new_best_hits_go_spec recip rest n
        (fun c hc => hwf c (List.mem_cons_of_mem _ hc))
      refine ⟨out, ?_, hrank, ?_⟩
      · simp only [new_best_hits_go, hget, hre, Nat.add_sub_cancel]
        exact hout
      · rw [List.filter_cons, hre]
        simpa using hseq
    | some bf =>
      obtain ⟨out, hout, hrank, hseq⟩ := new_best_hits_go_spec recip rest (n + 1)
        (fun c hc => hwf c (List.mem_cons_of_mem _ hc))
      refine ⟨{ seq_name := (pySplit cand.name '@').headD "", gene := g, rank := n + 1,
                reciprocal := g == bf } :: out, ?_, ?_, ?_⟩
      · simp only [new_best_hits_go, hget, hre, hout]
      · simp [hrank, List.range'_succ]
      · rw [List.filter_cons, hre]
        simpa using hseq

/-- C6: a candidate with no reciprocity record is silently dropped (no
record written, no error) and the rank counter is decremented, so the
ranks actually written form the contiguous sequence `1..k` in output
order, and the written records are exactly the candidates possessing a
reciprocity record, in selection order. -/
theorem claim_C6_silent_drop (recip : String → Option String) (cands : List Hit)
    (hwf : ∀ c ∈ cands, 2 ≤ (pySplit c.name '@').length) :
    ∃ out, new_best_hits_out recip cands = some out ∧
      out.map OutEntry.rank = List.range' 1 out.length ∧
      out.map OutEntry.seq_name =
        ((cands.filter fun c =>
            (recip (pyDropRight ((pySplit c.name '@').headD "") 4)).isSome).map
          fun c => (pySplit c.name '@').headD "") :=
  new_best_hits_go_spec recip cands 0 hwf

/-- Concrete instance of the silent drop (C6): of three candidates the
middle one lacks a reciprocity record; the survivors get ranks 1 and 2. -/
theorem claim_C6_witness :
    ∃ out, new_best_hits_out (assocFind exRecipM) [exCand1, exCand2, exCand3] = some out ∧
      out.map OutEntry.rank = List.range' 1 out.length ∧
      out.map OutEntry.seq_name =
        (([exCand1, exCand2, exCand3].filter fun c =>
            (assocFind exRecipM (pyDropRight ((pySplit c.name '@').headD "") 4)).isSome).map
          fun c => (pySplit c.name '@').headD "") :=
  claim_C6_silent_drop (assocFind exRecipM) [exCand1, exCand2, exCand3] (by decide)

/-- Successful unpacking `a, b = s.split(sep)` determines the head of the
split. -/
theorem split2_headD (s : String) (sep : Char) (a b : String)
    (h : split2 s sep = some (a, b)) : (pySplit s sep).headD "" = a := by
  rw [split2] at h
  split at h
  · rename_i a1 b1 heq
    simp only [Option.some_inj, Prod.mk.injEq] at h
    rw [heq]
    exact h.1
  · cases h

/-- An association list whose keys all lie in `proccesed` resolves no key
outside `proccesed`. -/
theorem assocFind_none_of_not_mem (acc : List (String × String)) (proccesed : List String)
    (hinv : ∀ e ∈ acc, e.1 ∈ proccesed) (s : String) (hs : s ∉ proccesed) :
    assocFind acc s = none := by
  have hnone : acc.find? (fun e => e.1 == s) = none := by
    rw [List.find?_eq_none]
    intro e he
    simp only [beq_iff_eq]
    intro h1
    exact hs (h1 ▸ hinv e he)
  rw [assocFind, hnone]
  rfl

/-- The reciprocity-record loop: a key resolves to a label iff it was
already accumulated or its first-occurring unprocessed dataset line
carries that label. -/
theorem get_reciprocal_hits_go_spec :
    ∀ (lines : List DLine) (proccesed : List String) (acc m : List (String × String)),
      (∀ e ∈ acc, e.1 ∈ proccesed) →
      get_reciprocal_hits_go lines proccesed acc = some m →
      ∀ s g : String, assocFind m s = some g ↔
        (assocFind acc s = some g ∨
          (s ∉ proccesed ∧
            ∃ l, lines.find? (fun x => reciprocalKey x.qseqid == s) = some l ∧
              hitGeneOf l.stitle = g))
  | [], proccesed, acc, m, _, hres, s, g => by
    rw [get_reciprocal_hits_go] at hres
    injection hres with h
    subst h
    simp
  | line :: rest, proccesed, acc, m, hinv, hres, s, g => by
    rw [get_reciprocal_hits_go] at hres
    split at hres
    · exact absurd hres (by simp)
    · rename_i sequence0 gene hsp
      have hkey : reciprocalKey line.qseqid = pyDropRight sequence0 4 := by
        rw [reciprocalKey, split2_headD line.qseqid _ sequence0 gene hsp]
      split at hres
      · rename_i hmem
        have ih := get_reciprocal_hits_go_spec rest proccesed acc m hinv hres s g
        by_cases hq : pyDropRight sequence0 4 = s
        · rw [ih]
          constructor
          · rintro (h | ⟨hnp, -⟩)
            · exact Or.inl h
            · exact absurd (hq ▸ hmem) hnp
          · rintro (h | ⟨hnp, -⟩)
            · exact Or.inl h
            · exact absurd (hq ▸ hmem) hnp
        · rw [List.find?_cons_of_neg _ (by simp [hkey, hq]), ih]
      · rename_i hmem
        have hinv2 : ∀ e ∈ (pyDropRight sequence0 4, hitGeneOf line.stitle) :: acc,
            e.1 ∈ pyDropRight sequence0 4 :: proccesed := by
          intro e he
          rcases List.mem_cons.mp he with rfl | he2
          · exact List.mem_cons_self _ _
          · exact List.mem_cons_of_mem _ (hinv e he2)
        have ih := get_reciprocal_hits_go_spec rest (pyDropRight sequence0 4 :: proccesed)
          ((pyDropRight sequence0 4, hitGeneOf line.stitle) :: acc) m hinv2 hres s g
        by_cases hq : pyDropRight sequence0 4 = s
        · have hacc : assocFind acc s = none :=
            assocFind_none_of_not_mem acc proccesed hinv s (hq ▸ hmem)
          rw [List.find?_cons_of_pos _ (by simp [hkey, hq]), ih]
          have haccs : assocFind ((pyDropRight sequence0 4, hitGeneOf line.stitle) :: acc) s =
              some (hitGeneOf line.stitle) := by
            rw [assocFind, List.find?_cons_of_pos _ (by simp [hq])]
            rfl
          rw [haccs]
          constructor
          · rintro (h | ⟨hnp, -⟩)
            · have hh : hitGeneOf line.stitle = g := by injection h
              exact Or.inr ⟨hq ▸ hmem, line, rfl, hh⟩
            · refine absurd ?_ hnp
              rw [← hq]
              exact List.mem_cons_self _ _
          · rintro (h | ⟨-, l, hfind, hlab⟩)
            · rw [hacc] at h
              cases h
            · injection hfind with hl
              subst hl
              exact Or.inl (by rw [hlab])
        · have haccs : assocFind ((pyDropRight sequence0 4, hitGeneOf line.stitle) :: acc) s =
              assocFind acc s := by
            rw [assocFind, assocFind, List.find?_cons_of_neg _ (by simp [hq])]
          rw [ih, haccs, List.find?_cons_of_neg _ (by simp [hkey, hq])]
          have hq' : ¬ (s = pyDropRight sequence0 4) := fun h => hq h.symm
          simp [List.mem_cons, hq']

/-- The reciprocity record of `get_reciprocal_hits` resolves a stripped
identifier to the gene label of its first-occurring dataset line. -/
theorem get_reciprocal_hits_spec (lines : List DLine) (m : List (String × String))
    (hm : get_reciprocal_hits lines = some m) (s g : String) :
    assocFind m s = some g ↔
      ∃ l, lines.find? (fun x => reciprocalKey x.qseqid == s) = some l ∧
        hitGeneOf l.stitle = g := by
  have := get_reciprocal_hits_go_spec lines [] [] m (by simp) hm s g
  simpa [assocFind] using this

/-- Every record written by `new_best_hits` carries the reciprocity flag
`gene == recorded label` for its own stripped identifier. -/
theorem new_best_hits_go_flag (recip : String → Option String) :
    ∀ (cands : List Hit) (n : Nat) (out : List OutEntry),
      new_best_hits_go recip n cands = some out →
      ∀ e ∈ out, ∃ bf, recip (pyDropRight e.seq_name 4) = some bf ∧
        e.reciprocal = (e.gene == bf)
  | [], _, out, hout, e, he => by
    rw [new_best_hits_go] at hout
    injection hout with h
    subst h
    cases he
  | cand :: rest, n, out, hout, e, he => by
    rw [new_best_hits_go] at hout
    split at hout
    · cases hout
    · rename_i gene hget
      split at hout
      · exact new_best_hits_go_flag recip rest (n + 1 - 1) out hout e he
      · rename_i bf hre
        split at hout
        · cases hout
        · rename_i out' hout'
          injection hout with h
          subst h
          rcases List.mem_cons.mp he with rfl | he'
          · exact ⟨bf, hre, rfl⟩
          · exact new_best_hits_go_flag recip rest (n + 1) out' hout' e he'

/-- C7: a written candidate's quality suffix is `r` (reciprocal) iff the
gene label of the first-occurring dataset-diamond line for its stripped
identifier equals the gene it was selected for. -/
theorem claim_C7_r_iff_first_hit (datasetLines : List DLine) (m : List (String × String))
    (cands : List Hit) (out : List OutEntry)
    (hm : get_reciprocal_hits datasetLines = some m)
    (hout : new_best_hits_out (assocFind m) cands = some out)
    (e : OutEntry) (he : e ∈ out) :
    e.reciprocal = true ↔
      ∃ l, datasetLines.find?
          (fun x => reciprocalKey x.qseqid == pyDropRight e.seq_name 4) = some l ∧
        hitGeneOf l.stitle = e.gene := by
  obtain ⟨bf, hbf, hflag⟩ := new_best_hits_go_flag (assocFind m) cands 0 out hout e he
  have hspec := get_reciprocal_hits_spec datasetLines m hm (pyDropRight e.seq_name 4)
  rw [hflag]
  constructor
  · intro h
    have hbg : e.gene = bf := by simpa using h
    exact (hspec e.gene).mp (by rw [hbf, hbg])
  · intro h
    have h2 := (hspec e.gene).mpr h
    rw [hbf] at h2
    injection h2 with h3
    simp [h3]

/-- Concrete instance of the reciprocity tag (C7): the first candidate's
record points back to its own gene, so its flag is `r`. -/
theorem claim_C7_witness :
    exEntry1.reciprocal = true ↔
      ∃ l, [exRL1, exRL2, exRL3].find?
          (fun x => reciprocalKey x.qseqid == pyDropRight exEntry1.seq_name 4) = some l ∧
        hitGeneOf l.stitle = exEntry1.gene :=
  claim_C7_r_iff_first_hit [exRL1, exRL2, exRL3] exRecipM [exCand1, exCand2, exCand3] exOut
    (by decide) (by decide) exEntry1 (by decide)

end Fisher
